import Mathlib

/-!
# UKBAnalyzer — shallow embedding and verification

A shallow embedding of the core of the UKBAnalyzer repository
(`ukb_analysis/integrated_analyzer.py`, `ukb_analysis/disease_contributions_analyzer.py`,
`ukb_analysis/showcase_scraper.py`), together with theorems settling the frozen
claims about the spec.

Python strings are modelled as Lean `String`/`List Char` (ASCII behaviour of
`str.lower`, `\w`, `\d` is what occurs in this repository's data); machine
floats appearing only through `np.log1p` are modelled over `ℝ`, with `Option ℝ`
whose `none` stands for a non-finite float (NaN/−inf); Python dynamic values
feeding `int(float(·))` are modelled by an explicit variant type.
-/

namespace UKB

/-! ## String utilities -/

/-- `needle.isPrefixOf hay` on character lists (used to build Python's
substring operator `needle in hay`). -/
def isPrefList : List Char → List Char → Bool
  | [], _ => true
  | _ :: _, [] => false
  | a :: as, b :: bs => a = b && isPrefList as bs

/-- Python's substring test `needle in hay` (character lists). -/
def occursIn (needle : List Char) : List Char → Bool
  | [] => isPrefList needle []
  | c :: t => isPrefList needle (c :: t) || occursIn needle t

/-- Python's substring test `needle in hay` on `String`. -/
def strContains (hay needle : String) : Bool :=
  occursIn needle.toList hay.toList

/-- Number of starting positions of `needle` inside `hay` (occurrences counted
with multiplicity).  Used only by the spec-modelled occurrence-counting
formula, never by the embedding of the code. -/
def countOccur (needle : List Char) : List Char → ℕ
  | [] => if isPrefList needle [] then 1 else 0
  | c :: t => (if isPrefList needle (c :: t) then 1 else 0) + countOccur needle t

/-- `str.lower()` (ASCII; all text this code lowercases is ASCII). -/
def lowerStr (s : String) : String :=
  String.mk (s.toList.map Char.toLower)

/-- `str.strip()` restricted to whitespace (its no-argument form). -/
def stripStr (s : String) : String :=
  String.mk (((s.toList.dropWhile Char.isWhitespace).reverse.dropWhile
    Char.isWhitespace).reverse)

/-! ## The field-id scanner: `re.findall(r'\b\d+-\d+\.\d+\b', text)` -/

/-- `\d` of the regex. -/
def isDigitCh (c : Char) : Bool := '0' ≤ c && c ≤ '9'

/-- `\w` of the regex (ASCII). -/
def isWordCh (c : Char) : Bool :=
  isDigitCh c || ('a' ≤ c && c ≤ 'z') || ('A' ≤ c && c ≤ 'Z') || c = '_'

/-- Greedy match of `\d+-\d+\.\d+` at the head of `l`; returns the matched
length.  Greedy matching with a subsequent boundary check is equivalent to the
regex's backtracking here: shrinking any of the `\d+` groups always leaves the
following boundary directly before a digit, which is a word character. -/
def matchFieldLen (l : List Char) : Option ℕ :=
  let d1 := (l.takeWhile isDigitCh).length
  if d1 = 0 then none else
  match l.drop d1 with
  | '-' :: r2 =>
    let d2 := (r2.takeWhile isDigitCh).length
    if d2 = 0 then none else
    match r2.drop d2 with
    | '.' :: r3 =>
      let d3 := (r3.takeWhile isDigitCh).length
      if d3 = 0 then none else some (d1 + 1 + d2 + 1 + d3)
    | _ => none
  | _ => none

/-- The trailing `\b`: the next position is end-of-text or a non-word char. -/
def noWordAt : List Char → Bool
  | [] => true
  | c :: _ => !isWordCh c

/-- Scanner for `re.findall` with the field pattern: left-to-right,
non-overlapping, a match may start only at a `\b` (tracked by `prevW`, whether
the previous character was a word character).  The scan consumes at least one
character per step; the `fuel` argument, instantiated with the text length,
only makes the recursion structural and is never exhausted early. -/
def findFieldsAux : ℕ → List Char → Bool → List String
  | 0, _, _ => []
  | _ + 1, [], _ => []
  | fuel + 1, c :: rest, prevW =>
    if prevW then findFieldsAux fuel rest (isWordCh c)
    else
      match matchFieldLen (c :: rest) with
      | some n =>
        if noWordAt (List.drop n (c :: rest)) then
          String.mk (List.take n (c :: rest)) ::
            findFieldsAux fuel (List.drop (n - 1) rest) true
        else findFieldsAux fuel rest (isWordCh c)
      | none => findFieldsAux fuel rest (isWordCh c)

/-- `re.findall(r'\b\d+-\d+\.\d+\b', text)` — the field-id mentions of a text,
in order, with multiplicity. -/
def findFields (text : String) : List String :=
  findFieldsAux text.toList.length text.toList false

/-! ## `IntegratedAnalyzer._analyze_field_usage` (integrated_analyzer.py) -/

/-- The per-field aggregate built by `_analyze_field_usage`'s defaultdict value
`{'mentions': 0, 'papers': set(), 'contexts': [], 'years': set()}`. -/
structure UsageRec where
  mentions : ℕ
  papers : Finset String
  contexts : List String
  years : Finset (Option Int)
deriving DecidableEq

/-- The defaultdict's default value. -/
def emptyRec : UsageRec := ⟨0, ∅, [], ∅⟩

/-- The `field_usage` defaultdict: its key set (keys are created exactly by the
guarded `field_usage[field_id]` accesses) together with the per-key record
(`emptyRec` off the key set). -/
structure Usage where
  keys : Finset String
  recs : String → UsageRec

def emptyUsage : Usage := ⟨∅, fun _ => emptyRec⟩

/-- A publication record as consumed by `IntegratedAnalyzer`.  Missing `title`
and `abstract` keys default to `""` (the code's `pub.get(…, '')`); `year` is
`pub.get('year')`, hence possibly `none`; `sents` is the spaCy sentence
segmentation of `title + " " + abstract`, taken as an oracle input;
`publication_id` is the UKB-internal identifier carried by the parsed corpus
(`ukb_publications_parser.py`), which `_analyze_field_usage` never reads. -/
structure IPub where
  publication_id : String
  title : String
  abstract : String
  year : Option Int
  sents : List String

/-- `text = f"{pub.get('title','')} {pub.get('abstract','')}"`. -/
def pubText (p : IPub) : String := p.title ++ " " ++ p.abstract

/-- `_get_field_context`: the (stripped) sentences of the text that contain the
field id; `[]` when the spaCy model is unavailable (`self.nlp` falsy). -/
def getFieldContext (nlp : Bool) (sents : List String) (fid : String) : List String :=
  if nlp then (sents.filter (fun s => strContains s fid)).map stripStr else []

/-- The body of the guarded branch of the mention loop: `mentions += 1`,
`papers.add(pub.get('title'))`, `years.add(year)`, and — when `self.nlp` is
set — `contexts.extend(self._get_field_context(text, field_id))`. -/
def touchField (nlp : Bool) (p : IPub) (u : Usage) (fid : String) : Usage :=
  { keys := insert fid u.keys
    recs := fun x =>
      if x = fid then
        { mentions := (u.recs fid).mentions + 1
          papers := insert p.title (u.recs fid).papers
          years := insert p.year (u.recs fid).years
          contexts := (u.recs fid).contexts ++ getFieldContext nlp p.sents fid }
      else u.recs x }

/-- One iteration of `for field_id in found_fields`: only taxonomy-confirmed
ids (`if field_id in self.field_mappings`) touch the usage table. -/
def mentionStep (maps : List (String × String)) (nlp : Bool) (p : IPub)
    (u : Usage) (fid : String) : Usage :=
  if (maps.map Prod.fst).contains fid then touchField nlp p u fid else u

/-- Processing of one publication: scan its text for field ids and fold the
mention loop. -/
def processPub (maps : List (String × String)) (nlp : Bool) (u : Usage)
    (p : IPub) : Usage :=
  (findFields (pubText p)).foldl (mentionStep maps nlp p) u

/-- `_analyze_field_usage`: fold over the corpus.  `maps` is the
`field_mappings` dict as an association list field-id → category name (the
loop reads only key membership). -/
def analyzeFieldUsage (maps : List (String × String)) (nlp : Bool)
    (pubs : List IPub) : Usage :=
  pubs.foldl (processPub maps nlp) emptyUsage

/-! ## `IntegratedAnalyzer.analyze_category_coverage` and the coverage
percentage of `create_visualizations` -/

/-- Per-category coverage statistics (`analyze_category_coverage`'s defaultdict
value). -/
structure CovStats where
  total_fields : ℕ
  used_fields : ℕ
  total_mentions : ℕ
  papers : Finset String
deriving DecidableEq

def emptyCov : CovStats := ⟨0, 0, 0, ∅⟩

/-- One iteration of the loop over `self.field_mappings.items()`:
`total_fields += 1` for the field's category, and — when the field id is a key
of `field_usage` — `used_fields += 1`, `total_mentions += usage['mentions']`,
`papers.update(usage['papers'])`. -/
def covStep (usage : Usage) (acc : String → CovStats) (item : String × String) :
    String → CovStats :=
  fun cat =>
    if cat = item.2 then
      if item.1 ∈ usage.keys then
        { total_fields := (acc cat).total_fields + 1
          used_fields := (acc cat).used_fields + 1
          total_mentions := (acc cat).total_mentions + (usage.recs item.1).mentions
          papers := (acc cat).papers ∪ (usage.recs item.1).papers }
      else { acc cat with total_fields := (acc cat).total_fields + 1 }
    else acc cat

/-- `analyze_category_coverage`, as a map category-name → statistics. -/
def analyzeCategoryCoverage (maps : List (String × String)) (usage : Usage) :
    String → CovStats :=
  maps.foldl (covStep usage) (fun _ => emptyCov)

/-- The usage percentage of `create_visualizations`:
`(used_fields / total_fields * 100) if total_fields > 0 else 0`, over ℚ. -/
def usagePercentage (s : CovStats) : ℚ :=
  if 0 < s.total_fields then (s.used_fields : ℚ) / (s.total_fields : ℚ) * 100 else 0

/-! ## `DiseaseContributionsAnalyzer` (disease_contributions_analyzer.py) -/

/-- The Python value found under `pub.get('total_citations', 0)`: the key may
be absent (→ default `0`), hold `None`, an `int`, a `float`, or a string (the
corpus parser `ukb_publications_parser.py` stores the raw column string). -/
inductive RawCit where
  | absent : RawCit
  | pyNone : RawCit
  | int (n : Int) : RawCit
  | float (q : ℚ) : RawCit
  | str (s : String) : RawCit
deriving DecidableEq

/-- Value of a digit run. -/
def digitsVal (l : List Char) : ℕ :=
  l.foldl (fun a c => a * 10 + (c.toNat - '0'.toNat)) 0

/-- Python `float(s)` on the `[sign] digits [. digits]` fragment of its
grammar — the shape citation-count columns take; every other string is a parse
failure (`ValueError`).  (Exotic accepted forms such as exponents, `inf`/`nan`
and underscores do not occur in citation columns and are not modelled.)
The result is kept syntactic — `(negative?, integer part, fractional digits
value, number of fractional digits)` — with the float's numeric value given by
`floatPartsVal`. -/
def parseFloatParts (l : List Char) : Option (Bool × ℕ × ℕ × ℕ) :=
  let sl : Bool × List Char :=
    match l with
    | '-' :: t => (true, t)
    | '+' :: t => (false, t)
    | t => (false, t)
  let intPart := sl.2.takeWhile isDigitCh
  match sl.2.drop intPart.length with
  | [] => if intPart = [] then none else some (sl.1, digitsVal intPart, 0, 0)
  | '.' :: t =>
    let fracPart := t.takeWhile isDigitCh
    if t.drop fracPart.length ≠ [] then none
    else if intPart = [] && fracPart = [] then none
    else some (sl.1, digitsVal intPart, digitsVal fracPart, fracPart.length)
  | _ => none

/-- The numeric value of a parsed float literal. -/
def floatPartsVal (p : Bool × ℕ × ℕ × ℕ) : ℚ :=
  (if p.1 then -1 else 1) * ((p.2.1 : ℚ) + (p.2.2.1 : ℚ) / (10 ^ p.2.2.2 : ℚ))

/-- Python `int(·)` on a float value: truncation toward zero. -/
def truncQ (q : ℚ) : Int := if 0 ≤ q then ⌊q⌋ else ⌈q⌉

/-- `int(·)` of a parsed float literal: truncation toward zero drops the
fractional digits and applies the sign (`truncParts_eq_truncQ` below checks
this against `truncQ` on the literal's value). -/
def truncParts (p : Bool × ℕ × ℕ × ℕ) : Int :=
  if p.1 then -(p.2.1 : Int) else (p.2.1 : Int)

/-- `int(float(pub.get('total_citations', 0)))` under
`try/except (TypeError, ValueError): citations = 0`
(analyze_disease_contributions, lines 55–59). -/
def coerceCitations : RawCit → Int
  | .absent => 0
  | .pyNone => 0
  | .int n => n
  | .float q => truncQ q
  | .str s =>
    match parseFloatParts s.toList with
    | some p => truncParts p
    | none => 0

/-- The fixed impact-phrase vocabulary of `_calculate_impact_score`. -/
def impactPhrases : List String :=
  ["first", "novel", "breakthrough", "significant", "important",
   "major advance", "key finding", "innovative"]

/-- `sum(1 for phrase in impact_phrases if phrase in text.lower())` — one per
*phrase present*, not per occurrence. -/
def impactCount (text : String) : ℕ :=
  (impactPhrases.filter (fun ph => strContains (lowerStr text) ph)).length

/-- The citation term `np.log1p(float(citations)) / 10`.  `np.log1p` raises no
exception: on a negative count it returns a non-finite float (−inf at −1, NaN
below), modelled as `none`; for `c ≥ 0` the float result is the real
`log (1 + c) / 10`. -/
noncomputable def citationTerm (c : Int) : Option ℝ :=
  if 0 ≤ c then some (Real.log (1 + (c : ℝ)) / 10) else none

/-- The body of `_calculate_impact_score` inside its `try`.  `text` is `none`
when the argument is not a string, in which case `text.lower()` raises (the
only raising operation of the body — `citations` reaches it as an `int`);
`citations = None` takes the `else 0` branch of the conditional expression. -/
noncomputable def calcImpactScoreBody (text : Option String)
    (citations : Option Int) : Except Unit (Option ℝ) :=
  match text with
  | none => .error ()
  | some t =>
    let cs : Option ℝ :=
      match citations with
      | none => some 0
      | some c => citationTerm c
    .ok (cs.map (fun x => x + (impactCount t : ℝ) / (impactPhrases.length : ℝ)))

/-- `_calculate_impact_score`: the bare `except: return 0.0` wrapper around the
body. -/
noncomputable def calcImpactScore (text : Option String)
    (citations : Option Int) : Option ℝ :=
  match calcImpactScoreBody text citations with
  | .error _ => some 0
  | .ok v => v

/-- Modelled from the spec (§4.4), for comparison with the code: the impact
score with the second term counting impact-phrase *occurrences* in the text,
repeats included. -/
def specImpactOccurrences (text : String) : ℕ :=
  (impactPhrases.map (fun ph => countOccur ph.toList (lowerStr text).toList)).sum

/-- Modelled from the spec (§4.4):
`log(1 + citations) / 10 + occurrences / |vocabulary|`. -/
noncomputable def specImpactScore (text : String) (citations : Int) : ℝ :=
  Real.log (1 + (citations : ℝ)) / 10 +
    (specImpactOccurrences text : ℝ) / (impactPhrases.length : ℝ)

/-- A publication record as consumed by `DiseaseContributionsAnalyzer`.
String keys read with `pub.get(k, '')` are modelled pre-defaulted to `""`;
`year` keeps its possible absence (`pub.get('year', 'Unknown')` is applied at
contribution build time); `total_citations` is the raw dynamic value; `sents`
is the spaCy segmentation of `title + " " + abstract`, an oracle input. -/
structure DPub where
  title : String
  abstract : String
  year : Option String
  journal : String
  doi : String
  pubmed_id : String
  total_citations : RawCit
  sents : List String

/-- The literal expansions of the six `finding_patterns` regexes of
`_extract_key_findings` (each pattern is an alternation/optional-group over
plain words, so `re.search(p, s, re.IGNORECASE)` holds iff one of these
literals occurs in the lowercased sentence). -/
def findingPhrases : List String :=
  ["we found", "we identified", "we discovered", "we observed", "we showed",
   "results showed", "results demonstrated", "results indicated", "results revealed",
   "significant associated", "significantly associated",
   "strong correlated", "strongly correlated",
   "key finding",
   "novel finding", "novel discovery", "novel association"]

/-- `any(re.search(pattern, sent.text, re.IGNORECASE) for pattern in finding_patterns)`. -/
def matchesFinding (sent : String) : Bool :=
  findingPhrases.any (fun ph => strContains (lowerStr sent) ph)

/-- `_extract_key_findings`: the stripped sentences matching a finding
pattern. -/
def extractKeyFindings (sents : List String) : List String :=
  (sents.filter matchesFinding).map stripStr

/-- The fixed `disease_categories` keyword dictionary, in insertion order. -/
def diseaseCategories : List (String × List String) :=
  [("cardiovascular",
    ["cardiovascular disease", "heart disease", "stroke",
     "hypertension", "atherosclerosis", "arrhythmia",
     "coronary artery disease", "heart failure"]),
   ("cancer",
    ["cancer", "tumour", "carcinoma", "neoplasm", "lymphoma",
     "leukemia", "melanoma", "oncology", "metastasis"]),
   ("neurodegenerative",
    ["alzheimer", "parkinson", "dementia", "neurodegeneration",
     "cognitive decline", "brain aging", "neurological"]),
   ("metabolic",
    ["diabetes", "obesity", "metabolic syndrome",
     "thyroid disease", "insulin resistance"]),
   ("psychiatric",
    ["depression", "anxiety", "mental health", "schizophrenia",
     "bipolar disorder", "psychiatric illness"]),
   ("respiratory",
    ["asthma", "copd", "lung disease", "respiratory disease",
     "pulmonary disease", "covid-19", "pneumonia"])]

/-- `_text_contains_keywords(text, keywords)` — `text` arrives already
lowercased; each keyword is lowercased before the substring test. -/
def textContainsKeywords (textLower : String) (keywords : List String) : Bool :=
  keywords.any (fun k => strContains textLower (lowerStr k))

/-- A per-(publication, category) contribution record. -/
structure Contribution where
  title : String
  year : String
  journal : String
  citations : Int
  findings : List String
  doi : String
  pubmed_id : String
  impact_score : Option ℝ

/-- The contribution dict built at lines 66–75 of
`analyze_disease_contributions` (same for every matching category of the
publication). -/
noncomputable def mkContribution (p : DPub) : Contribution :=
  { title := p.title
    year := p.year.getD "Unknown"
    journal := p.journal
    citations := coerceCitations p.total_citations
    findings := extractKeyFindings p.sents
    doi := p.doi
    pubmed_id := p.pubmed_id
    impact_score := calcImpactScore (some (p.title ++ " " ++ p.abstract))
      (some (coerceCitations p.total_citations)) }

/-- The per-publication step for one disease category: a contribution is
appended iff the lowercased text contains one of the category's keywords and
`_extract_key_findings` returns a non-empty list. -/
noncomputable def contribForCat (kws : List String) (p : DPub) : Option Contribution :=
  if textContainsKeywords (lowerStr (p.title ++ " " ++ p.abstract)) kws then
    if extractKeyFindings p.sents = [] then none else some (mkContribution p)
  else none

/-- `analyze_disease_contributions`, restricted to one category with keyword
list `kws`: the outer loop appends to `contributions[category]` in corpus
order, so the per-category list is a `filterMap` over the corpus.  The final
`contributions[category].sort(key=…, reverse=True)` only permutes each list
(it adds and removes nothing); production/membership facts are stated on the
pre-sort list. -/
noncomputable def analyzeCat (pubs : List DPub) (kws : List String) : List Contribution :=
  pubs.filterMap (contribForCat kws)

/-! ## `UKBShowcaseScraper._process_categories` (showcase_scraper.py) -/

/-- A row of the categories table, after the code's `str(row.get(…, ''))`
coercions: `cat_id` and `parent_id` are the stringified cells, `title` is
`row.get('title', row.get('cat_name', ''))`. -/
structure CatRow where
  cat_id : String
  title : String
  parent_id : String

/-- A row of the fields table, after the same coercions; `category` is
`str(field.get('category', field.get('cat_id', '')))`. -/
structure FieldRow where
  field_id : String
  title : String
  category : String
  ftype : String
  description : String

/-- The `field_info` dict built for each field row. -/
structure FieldInfo where
  field_id : String
  name : String
  ftype : String
  description : String
deriving DecidableEq

/-- A subcategory: display name and appended fields. -/
structure SubcatData where
  name : String
  fields : List FieldInfo
deriving DecidableEq

/-- A main category: display name and its subcategories, in insertion order
(the nested defaultdicts preserve insertion order, as Python dicts). -/
structure CatData where
  name : String
  subcats : List (String × SubcatData)
deriving DecidableEq

/-- The `categories` accumulator, in insertion order. -/
abbrev Cats := List (String × CatData)

/-- `categories[cid]['name'] = nm` (auto-vivifying `cid` with the defaultdict
default `{'name': '', 'subcategories': {}}`). -/
def setCatName (st : Cats) (cid nm : String) : Cats :=
  match st with
  | [] => [(cid, { name := nm, subcats := [] })]
  | (k, cd) :: rest =>
    if k = cid then (k, { cd with name := nm }) :: rest
    else (k, cd) :: setCatName rest cid nm

/-- `subcategories[sid]['name'] = nm` (auto-vivifying `sid` with default
`{'name': '', 'fields': []}`). -/
def setSubName (subs : List (String × SubcatData)) (sid nm : String) :
    List (String × SubcatData) :=
  match subs with
  | [] => [(sid, { name := nm, fields := [] })]
  | (k, sd) :: rest =>
    if k = sid then (k, { sd with name := nm }) :: rest
    else (k, sd) :: setSubName rest sid nm

/-- `categories[pid]['subcategories'][sid]['name'] = nm`. -/
def setSubcatName (st : Cats) (pid sid nm : String) : Cats :=
  match st with
  | [] => [(pid, { name := "", subcats := setSubName [] sid nm })]
  | (k, cd) :: rest =>
    if k = pid then (k, { cd with subcats := setSubName cd.subcats sid nm }) :: rest
    else (k, cd) :: setSubcatName rest pid sid nm

/-- First pass, one category row: skip empty `cat_id`; a present parent id
other than the `'nan'` stringified-NaN sentinel makes a subcategory, otherwise
a root category. -/
def processCatRow (st : Cats) (r : CatRow) : Cats :=
  if r.cat_id = "" then st
  else if r.parent_id ≠ "" ∧ r.parent_id ≠ "nan" then
    setSubcatName st r.parent_id r.cat_id r.title
  else setCatName st r.cat_id r.title

/-- Inner loop of the second pass over one category's subcategories:
`if cat_id in subcat['name'] or cat_id == subcat['name']` appends the field and
breaks; returns the updated subcategory list and the `found_category` flag. -/
def placeInSubs (subs : List (String × SubcatData)) (fi : FieldInfo)
    (ref : String) : List (String × SubcatData) × Bool :=
  match subs with
  | [] => ([], false)
  | (k, sd) :: rest =>
    if strContains sd.name ref || ref == sd.name then
      ((k, { sd with fields := sd.fields ++ [fi] }) :: rest, true)
    else
      ((k, sd) :: (placeInSubs rest fi ref).1, (placeInSubs rest fi ref).2)

/-- Outer loop of the second pass over `categories.values()`, with the
`if found_category: break`. -/
def placeInCats (st : Cats) (fi : FieldInfo) (ref : String) : Cats × Bool :=
  match st with
  | [] => ([], false)
  | (k, cd) :: rest =>
    if (placeInSubs cd.subcats fi ref).2 then
      ((k, { cd with subcats := (placeInSubs cd.subcats fi ref).1 }) :: rest, true)
    else ((k, cd) :: (placeInCats rest fi ref).1, (placeInCats rest fi ref).2)

/-- `subcategories[sid]['fields'].append(fi)` with auto-vivification of `sid`. -/
def addFieldToSub (subs : List (String × SubcatData)) (sid : String)
    (fi : FieldInfo) : List (String × SubcatData) :=
  match subs with
  | [] => [(sid, { name := "", fields := [fi] })]
  | (k, sd) :: rest =>
    if k = sid then (k, { sd with fields := sd.fields ++ [fi] }) :: rest
    else (k, sd) :: addFieldToSub rest sid fi

/-- `categories['uncategorized']['subcategories']['default']['fields'].append(fi)`
with auto-vivification of both levels. -/
def addToUncategorized (st : Cats) (fi : FieldInfo) : Cats :=
  match st with
  | [] => [("uncategorized", { name := "", subcats := addFieldToSub [] "default" fi })]
  | (k, cd) :: rest =>
    if k = "uncategorized" then
      (k, { cd with subcats := addFieldToSub cd.subcats "default" fi }) :: rest
    else (k, cd) :: addToUncategorized rest fi

/-- Second pass, one field row: skip empty `field_id`, search all
subcategories in encounter order, fall back to uncategorized/default. -/
def processFieldRow (st : Cats) (f : FieldRow) : Cats :=
  if f.field_id = "" then st
  else
    let fi : FieldInfo :=
      { field_id := f.field_id, name := f.title, ftype := f.ftype,
        description := f.description }
    if (placeInCats st fi f.category).2 then (placeInCats st fi f.category).1
    else addToUncategorized st fi

/-- `_process_categories`: category pass then field pass. -/
def processCategories (catRows : List CatRow) (fieldRows : List FieldRow) : Cats :=
  fieldRows.foldl processFieldRow (catRows.foldl processCatRow [])

/-- Total number of field entries stored in a subcategory list. -/
def subFieldsLen (subs : List (String × SubcatData)) : ℕ :=
  (subs.map (fun x => x.2.fields.length)).sum

/-- Total number of field entries stored anywhere in the taxonomy. -/
def totalFields (st : Cats) : ℕ :=
  (st.map (fun x => subFieldsLen x.2.subcats)).sum

/-! ## Invariant predicates used by the usage-aggregation proofs -/

/-- Every record's paper set is no larger than its mention count. -/
def papersLEMentions (u : Usage) : Prop :=
  ∀ f, (u.recs f).papers.card ≤ (u.recs f).mentions

/-- `fid` has never been touched: no key was created and its record is the
default. -/
def noRecord (fid : String) (u : Usage) : Prop :=
  fid ∉ u.keys ∧ u.recs fid = emptyRec

/-! ## Helper lemmas about the usage aggregation -/

theorem touchField_recs_ne (nlp : Bool) (p : IPub) (u : Usage) (fid x : String)
    (h : x ≠ fid) : (touchField nlp p u fid).recs x = u.recs x := by
  simp [touchField, h]

theorem touchField_recs_self (nlp : Bool) (p : IPub) (u : Usage) (fid : String) :
    (touchField nlp p u fid).recs fid =
      { mentions := (u.recs fid).mentions + 1
        papers := insert p.title (u.recs fid).papers
        years := insert p.year (u.recs fid).years
        contexts := (u.recs fid).contexts ++ getFieldContext nlp p.sents fid } := by
  simp [touchField]

theorem papersLEMentions_touch {u : Usage} (nlp : Bool) (p : IPub) (fid : String)
    (h : papersLEMentions u) : papersLEMentions (touchField nlp p u fid) := by
  intro f
  by_cases hf : f = fid
  · subst hf
    rw [touchField_recs_self]
    exact le_trans (Finset.card_insert_le _ _) (Nat.add_le_add_right (h f) 1)
  · rw [touchField_recs_ne nlp p u fid f hf]
    exact h f

theorem papersLEMentions_step {u : Usage} (maps : List (String × String))
    (nlp : Bool) (p : IPub) (fid : String) (h : papersLEMentions u) :
    papersLEMentions (mentionStep maps nlp p u fid) := by
  unfold mentionStep
  by_cases hc : (maps.map Prod.fst).contains fid
  · rw [if_pos hc]
    exact papersLEMentions_touch nlp p fid h
  · rwa [if_neg hc]

theorem papersLEMentions_foldl (maps : List (String × String)) (nlp : Bool)
    (p : IPub) : ∀ (l : List String) (u : Usage), papersLEMentions u →
    papersLEMentions (l.foldl (mentionStep maps nlp p) u) := by
  intro l
  induction l with
  | nil => intro u h; exact h
  | cons a t ih =>
    intro u h
    exact ih _ (papersLEMentions_step maps nlp p a h)

theorem papersLEMentions_pubs (maps : List (String × String)) (nlp : Bool) :
    ∀ (pubs : List IPub) (u : Usage), papersLEMentions u →
    papersLEMentions (pubs.foldl (processPub maps nlp) u) := by
  intro pubs
  induction pubs with
  | nil => intro u h; exact h
  | cons p t ih =>
    intro u h
    exact ih _ (papersLEMentions_foldl maps nlp p _ u h)

theorem noRecord_step {u : Usage} (maps : List (String × String)) (nlp : Bool)
    (p : IPub) {fid : String} (g : String)
    (hm : (maps.map Prod.fst).contains fid = false) (h : noRecord fid u) :
    noRecord fid (mentionStep maps nlp p u g) := by
  unfold mentionStep
  by_cases hc : (maps.map Prod.fst).contains g
  · rw [if_pos hc]
    have hg : fid ≠ g := by
      rintro rfl
      rw [hm] at hc
      exact Bool.noConfusion hc
    refine ⟨?_, ?_⟩
    · simp only [touchField, Finset.mem_insert]
      rintro (rfl | hmem)
      · exact hg rfl
      · exact h.1 hmem
    · rw [touchField_recs_ne nlp p u g fid hg]
      exact h.2
  · rwa [if_neg hc]

theorem noRecord_foldl (maps : List (String × String)) (nlp : Bool) (p : IPub)
    {fid : String} (hm : (maps.map Prod.fst).contains fid = false) :
    ∀ (l : List String) (u : Usage), noRecord fid u →
    noRecord fid (l.foldl (mentionStep maps nlp p) u) := by
  intro l
  induction l with
  | nil => intro u h; exact h
  | cons a t ih =>
    intro u h
    exact ih _ (noRecord_step maps nlp p a hm h)

theorem noRecord_pubs (maps : List (String × String)) (nlp : Bool)
    {fid : String} (hm : (maps.map Prod.fst).contains fid = false) :
    ∀ (pubs : List IPub) (u : Usage), noRecord fid u →
    noRecord fid (pubs.foldl (processPub maps nlp) u) := by
  intro pubs
  induction pubs with
  | nil => intro u h; exact h
  | cons p t ih =>
    intro u h
    exact ih _ (noRecord_foldl maps nlp p hm _ u h)

theorem mentionStep_recs_ne (maps : List (String × String)) (nlp : Bool)
    (p : IPub) (u : Usage) {fid g : String} (hg : fid ≠ g) :
    (mentionStep maps nlp p u g).recs fid = u.recs fid := by
  unfold mentionStep
  by_cases hcg : (maps.map Prod.fst).contains g
  · rw [if_pos hcg]
    exact touchField_recs_ne nlp p u g fid hg
  · rw [if_neg hcg]

theorem mentionStep_recs_not_confirmed (maps : List (String × String))
    (nlp : Bool) (p : IPub) (u : Usage) {fid : String} (g : String)
    (hc : (maps.map Prod.fst).contains fid = false) :
    (mentionStep maps nlp p u g).recs fid = u.recs fid := by
  by_cases hg : fid = g
  · subst hg
    unfold mentionStep
    rw [hc]
    simp
  · exact mentionStep_recs_ne maps nlp p u hg

theorem mentionStep_recs_self (maps : List (String × String)) (nlp : Bool)
    (p : IPub) (u : Usage) {fid : String}
    (hc : (maps.map Prod.fst).contains fid = true) :
    (mentionStep maps nlp p u fid).recs fid =
      { mentions := (u.recs fid).mentions + 1
        papers := insert p.title (u.recs fid).papers
        years := insert p.year (u.recs fid).years
        contexts := (u.recs fid).contexts ++ getFieldContext nlp p.sents fid } := by
  unfold mentionStep
  rw [hc]
  simp only [if_pos]
  exact touchField_recs_self nlp p u fid

theorem foldl_mentionStep_contexts (maps : List (String × String)) (nlp : Bool)
    (p : IPub) (fid : String) :
    ∀ (l : List String) (u : Usage),
      ((l.foldl (mentionStep maps nlp p) u).recs fid).contexts =
        (u.recs fid).contexts ++
          (if (maps.map Prod.fst).contains fid then
            (List.replicate (l.count fid) (getFieldContext nlp p.sents fid)).flatten
          else []) := by
  intro l
  induction l with
  | nil =>
    intro u
    by_cases hc : (maps.map Prod.fst).contains fid <;> simp [hc]
  | cons g t ih =>
    intro u
    rw [List.foldl_cons, ih (mentionStep maps nlp p u g)]
    by_cases hc : (maps.map Prod.fst).contains fid
    · rw [if_pos hc, if_pos hc]
      by_cases hg : g = fid
      · subst hg
        rw [mentionStep_recs_self maps nlp p u hc]
        simp only [List.count_cons_self, List.replicate_succ, List.flatten_cons,
          List.append_assoc]
      · rw [mentionStep_recs_ne maps nlp p u (Ne.symm hg)]
        have : (g :: t).count fid = t.count fid := by
          simp [List.count_cons, Ne.symm hg]
        rw [this]
    · rw [if_neg hc, if_neg hc,
        mentionStep_recs_not_confirmed maps nlp p u g (Bool.eq_false_iff.mpr hc)]

theorem foldl_processPub_contexts (maps : List (String × String)) (nlp : Bool)
    (fid : String) :
    ∀ (pubs : List IPub) (u : Usage),
      ((pubs.foldl (processPub maps nlp) u).recs fid).contexts =
        (u.recs fid).contexts ++
          pubs.flatMap (fun p =>
            if (maps.map Prod.fst).contains fid then
              (List.replicate ((findFields (pubText p)).count fid)
                (getFieldContext nlp p.sents fid)).flatten
            else []) := by
  intro pubs
  induction pubs with
  | nil => intro u; simp
  | cons p t ih =>
    intro u
    rw [List.foldl_cons, ih (processPub maps nlp u p)]
    show ((((findFields (pubText p)).foldl (mentionStep maps nlp p) u).recs fid).contexts) ++ _ = _
    rw [foldl_mentionStep_contexts maps nlp p fid (findFields (pubText p)) u]
    simp [List.append_assoc]

theorem foldl_mentionStep_papers (maps : List (String × String)) (nlp : Bool)
    (p : IPub) (fid : String) :
    ∀ (l : List String) (u : Usage),
      ((l.foldl (mentionStep maps nlp p) u).recs fid).papers =
        (if (maps.map Prod.fst).contains fid && l.contains fid then
          insert p.title (u.recs fid).papers
        else (u.recs fid).papers) := by
  intro l
  induction l with
  | nil => intro u; simp
  | cons g t ih =>
    intro u
    rw [List.foldl_cons, ih (mentionStep maps nlp p u g)]
    by_cases hc : (maps.map Prod.fst).contains fid
    · by_cases hg : g = fid
      · subst hg
        rw [mentionStep_recs_self maps nlp p u hc]
        cases ht : t.contains g with
        | true =>
          simp only [hc, ht, List.contains_cons, beq_self_eq_true, Bool.true_or,
            Bool.true_and, Bool.and_true]
          simp [Finset.insert_idem]
        | false =>
          simp only [hc, ht, List.contains_cons, beq_self_eq_true, Bool.true_or,
            Bool.true_and, Bool.and_true, Bool.and_false]
          simp
      · rw [mentionStep_recs_ne maps nlp p u (Ne.symm hg)]
        have hne : fid ≠ g := Ne.symm hg
        have : (g :: t).contains fid = t.contains fid := by
          rw [List.contains_cons]
          simp [hne]
        rw [this]
    · have hc' : (maps.map Prod.fst).contains fid = false := Bool.eq_false_iff.mpr hc
      rw [mentionStep_recs_not_confirmed maps nlp p u g hc']
      simp only [hc', Bool.false_and]

theorem foldl_processPub_papers (maps : List (String × String)) (nlp : Bool)
    (fid : String) :
    ∀ (pubs : List IPub) (u : Usage),
      ((pubs.foldl (processPub maps nlp) u).recs fid).papers =
        (u.recs fid).papers ∪
          ((pubs.filter (fun p => (maps.map Prod.fst).contains fid &&
              (findFields (pubText p)).contains fid)).map IPub.title).toFinset := by
  intro pubs
  induction pubs with
  | nil => intro u; simp
  | cons p t ih =>
    intro u
    rw [List.foldl_cons, ih (processPub maps nlp u p), List.filter_cons]
    show ((((findFields (pubText p)).foldl (mentionStep maps nlp p) u).recs fid).papers) ∪ _ = _
    rw [foldl_mentionStep_papers maps nlp p fid (findFields (pubText p)) u]
    by_cases hcond : (maps.map Prod.fst).contains fid &&
        (findFields (pubText p)).contains fid
    · rw [if_pos hcond, hcond]
      simp [Finset.insert_union, Finset.union_insert]
    · rw [if_neg hcond, Bool.eq_false_iff.mpr hcond]
      simp

theorem analyzeFieldUsage_papers (maps : List (String × String)) (nlp : Bool)
    (pubs : List IPub) (fid : String) :
    ((analyzeFieldUsage maps nlp pubs).recs fid).papers =
      ((pubs.filter (fun p => (maps.map Prod.fst).contains fid &&
          (findFields (pubText p)).contains fid)).map IPub.title).toFinset := by
  simpa [emptyUsage, emptyRec] using
    foldl_processPub_papers maps nlp fid pubs emptyUsage

theorem analyzeFieldUsage_contexts (maps : List (String × String)) (nlp : Bool)
    (pubs : List IPub) (fid : String) :
    ((analyzeFieldUsage maps nlp pubs).recs fid).contexts =
      pubs.flatMap (fun p =>
        if (maps.map Prod.fst).contains fid then
          (List.replicate ((findFields (pubText p)).count fid)
            (getFieldContext nlp p.sents fid)).flatten
        else []) := by
  simpa [emptyUsage, emptyRec] using
    foldl_processPub_contexts maps nlp fid pubs emptyUsage

/-! ## Helper lemmas about the taxonomy construction -/

theorem subFieldsLen_setSubName (subs : List (String × SubcatData))
    (sid nm : String) : subFieldsLen (setSubName subs sid nm) = subFieldsLen subs := by
  induction subs with
  | nil => simp [setSubName, subFieldsLen]
  | cons h t ih =>
    obtain ⟨k, sd⟩ := h
    by_cases hk : k = sid
    · simp [setSubName, hk, subFieldsLen]
    · simp [setSubName, hk, subFieldsLen]
      simpa [subFieldsLen] using ih

theorem totalFields_setCatName (st : Cats) (cid nm : String) :
    totalFields (setCatName st cid nm) = totalFields st := by
  induction st with
  | nil => simp [setCatName, totalFields, subFieldsLen]
  | cons h t ih =>
    obtain ⟨k, cd⟩ := h
    by_cases hk : k = cid
    · simp [setCatName, hk, totalFields]
    · simp [setCatName, hk, totalFields]
      simpa [totalFields] using ih

theorem totalFields_setSubcatName (st : Cats) (pid sid nm : String) :
    totalFields (setSubcatName st pid sid nm) = totalFields st := by
  induction st with
  | nil => simp [setSubcatName, setSubName, totalFields, subFieldsLen]
  | cons h t ih =>
    obtain ⟨k, cd⟩ := h
    by_cases hk : k = pid
    · simp [setSubcatName, hk, totalFields, subFieldsLen_setSubName]
    · simp [setSubcatName, hk, totalFields]
      simpa [totalFields] using ih

theorem totalFields_processCatRow (st : Cats) (r : CatRow) :
    totalFields (processCatRow st r) = totalFields st := by
  unfold processCatRow
  by_cases h1 : r.cat_id = ""
  · rw [if_pos h1]
  · rw [if_neg h1]
    by_cases h2 : r.parent_id ≠ "" ∧ r.parent_id ≠ "nan"
    · rw [if_pos h2]
      exact totalFields_setSubcatName st r.parent_id r.cat_id r.title
    · rw [if_neg h2]
      exact totalFields_setCatName st r.cat_id r.title

theorem totalFields_catPass (rows : List CatRow) :
    ∀ st : Cats, totalFields (rows.foldl processCatRow st) = totalFields st := by
  induction rows with
  | nil => intro st; rfl
  | cons r t ih =>
    intro st
    rw [List.foldl_cons, ih (processCatRow st r), totalFields_processCatRow]

theorem subFieldsLen_placeInSubs (subs : List (String × SubcatData))
    (fi : FieldInfo) (ref : String) :
    subFieldsLen (placeInSubs subs fi ref).1 =
      subFieldsLen subs + (if (placeInSubs subs fi ref).2 then 1 else 0) := by
  induction subs with
  | nil => simp [placeInSubs, subFieldsLen]
  | cons h t ih =>
    obtain ⟨k, sd⟩ := h
    by_cases hm : (strContains sd.name ref || ref == sd.name : Bool)
    · simp [placeInSubs, hm, subFieldsLen]
      omega
    · simp only [placeInSubs, hm, Bool.false_eq_true, if_false, if_neg]
      simp only [subFieldsLen, List.map_cons, List.sum_cons] at ih ⊢
      omega

theorem totalFields_placeInCats (st : Cats) (fi : FieldInfo) (ref : String) :
    totalFields (placeInCats st fi ref).1 =
      totalFields st + (if (placeInCats st fi ref).2 then 1 else 0) := by
  induction st with
  | nil => simp [placeInCats, totalFields]
  | cons h t ih =>
    obtain ⟨k, cd⟩ := h
    by_cases hf : (placeInSubs cd.subcats fi ref).2
    · simp only [placeInCats, hf, if_true, if_pos]
      simp only [totalFields, List.map_cons, List.sum_cons]
      have := subFieldsLen_placeInSubs cd.subcats fi ref
      rw [if_pos hf] at this
      omega
    · simp only [placeInCats, hf, Bool.false_eq_true, if_false, if_neg]
      simp only [totalFields, List.map_cons, List.sum_cons] at ih ⊢
      omega

theorem subFieldsLen_addFieldToSub (subs : List (String × SubcatData))
    (sid : String) (fi : FieldInfo) :
    subFieldsLen (addFieldToSub subs sid fi) = subFieldsLen subs + 1 := by
  induction subs with
  | nil => simp [addFieldToSub, subFieldsLen]
  | cons h t ih =>
    obtain ⟨k, sd⟩ := h
    by_cases hk : k = sid
    · simp [addFieldToSub, hk, subFieldsLen]
      omega
    · simp only [addFieldToSub, hk, if_false, if_neg]
      simp only [subFieldsLen, List.map_cons, List.sum_cons] at ih ⊢
      omega

theorem totalFields_addToUncategorized (st : Cats) (fi : FieldInfo) :
    totalFields (addToUncategorized st fi) = totalFields st + 1 := by
  induction st with
  | nil => simp [addToUncategorized, addFieldToSub, totalFields, subFieldsLen]
  | cons h t ih =>
    obtain ⟨k, cd⟩ := h
    by_cases hk : k = "uncategorized"
    · simp [addToUncategorized, hk, totalFields, subFieldsLen_addFieldToSub]
      omega
    · simp only [addToUncategorized, hk, if_false, if_neg]
      simp only [totalFields, List.map_cons, List.sum_cons] at ih ⊢
      omega

theorem totalFields_processFieldRow (st : Cats) (f : FieldRow) :
    totalFields (processFieldRow st f) =
      totalFields st + (if f.field_id = "" then 0 else 1) := by
  unfold processFieldRow
  by_cases h : f.field_id = ""
  · rw [if_pos h, if_pos h]
    omega
  · rw [if_neg h, if_neg h]
    by_cases hp : (placeInCats st
        { field_id := f.field_id, name := f.title, ftype := f.ftype,
          description := f.description } f.category).2
    · rw [if_pos hp]
      have := totalFields_placeInCats st
        { field_id := f.field_id, name := f.title, ftype := f.ftype,
          description := f.description } f.category
      rw [if_pos hp] at this
      exact this
    · rw [if_neg hp]
      exact totalFields_addToUncategorized st _

theorem totalFields_fieldPass (rows : List FieldRow) :
    ∀ st : Cats, totalFields (rows.foldl processFieldRow st) =
      totalFields st + (rows.filter (fun f => !(f.field_id == ""))).length := by
  induction rows with
  | nil => intro st; simp
  | cons f t ih =>
    intro st
    rw [List.foldl_cons, ih (processFieldRow st f), totalFields_processFieldRow,
      List.filter_cons]
    by_cases h : f.field_id = ""
    · simp [h]
    · rw [if_neg h]
      have hb : (!(f.field_id == "")) = true := by
        simp [h]
      rw [hb, if_pos rfl]
      simp only [List.length_cons]
      omega

/-! ## Helper lemma about category coverage -/

theorem coverage_used_le_total (usage : Usage) :
    ∀ (maps : List (String × String)) (acc : String → CovStats),
      (∀ c, (acc c).used_fields ≤ (acc c).total_fields) →
      ∀ cat, ((maps.foldl (covStep usage) acc) cat).used_fields ≤
        ((maps.foldl (covStep usage) acc) cat).total_fields := by
  intro maps
  induction maps with
  | nil => intro acc h cat; exact h cat
  | cons it t ih =>
    intro acc h cat
    rw [List.foldl_cons]
    apply ih
    intro c
    unfold covStep
    by_cases hc : c = it.2
    · rw [if_pos hc]
      by_cases hm : it.1 ∈ usage.keys
      · rw [if_pos hm]
        exact Nat.add_le_add_right (h c) 1
      · rw [if_neg hm]
        exact le_trans (h c) (Nat.le_succ _)
    · rw [if_neg hc]
      exact h c

/-! ## Faithfulness check for the parsed-literal truncation -/

/-- `truncParts` agrees with truncation toward zero of the literal's value
(the side condition holds for every parser output: the fractional digits are
fewer than one unit). -/
theorem truncParts_eq_truncQ (p : Bool × ℕ × ℕ × ℕ)
    (hfrac : p.2.2.1 < 10 ^ p.2.2.2) :
    truncParts p = truncQ (floatPartsVal p) := by
  obtain ⟨b, ip, fp, n⟩ := p
  have hd : (0 : ℚ) < (10 : ℚ) ^ n := by positivity
  have hf0 : (0 : ℚ) ≤ (fp : ℚ) / (10 ^ n : ℚ) := by positivity
  have hf1 : (fp : ℚ) / (10 ^ n : ℚ) < 1 := by
    rw [div_lt_one hd]
    exact_mod_cast hfrac
  have hfloor : ⌊(ip : ℚ) + (fp : ℚ) / (10 ^ n : ℚ)⌋ = ip := by
    rw [Int.floor_eq_iff]
    constructor
    · push_cast
      linarith
    · push_cast
      linarith
  cases b with
  | false =>
    simp only [truncParts, floatPartsVal, Bool.false_eq_true, if_false, one_mul]
    unfold truncQ
    rw [if_pos (by positivity), hfloor]
  | true =>
    simp only [truncParts, floatPartsVal, if_true, neg_one_mul]
    unfold truncQ
    by_cases h0 : (ip : ℚ) + (fp : ℚ) / (10 ^ n : ℚ) = 0
    · rw [h0]
      have hip : (ip : ℚ) = 0 := by
        have : (0 : ℚ) ≤ (ip : ℚ) := Nat.cast_nonneg ip
        linarith
      have hip' : ip = 0 := by exact_mod_cast hip
      simp [hip']
    · have hpos : 0 < (ip : ℚ) + (fp : ℚ) / (10 ^ n : ℚ) := by
        have hge : (0 : ℚ) ≤ (ip : ℚ) + (fp : ℚ) / (10 ^ n : ℚ) := by positivity
        exact lt_of_le_of_ne hge (Ne.symm h0)
      rw [if_neg (by linarith), Int.ceil_neg, hfloor]

/-! ## Claim C1 — the impact-score formula -/

/-- C1 (counterexample): the claim's formula — occurrence counting, repeats
included — disagrees with `_calculate_impact_score` already on the text
`"first first"` with 0 citations: the code's phrase term is 1/8 (the phrase
`first` is *present*), while the claimed occurrence term is 2/8. -/
theorem impact_score_deviates_from_spec_formula :
    calcImpactScore (some "first first") (some 0) ≠
      some (specImpactScore "first first" 0) := by
  have h1 : impactCount "first first" = 1 := by decide
  have h2 : specImpactOccurrences "first first" = 2 := by decide
  have h3 : impactPhrases.length = 8 := by decide
  intro h
  simp only [calcImpactScore, calcImpactScoreBody, citationTerm, specImpactScore,
    h1, h2, h3] at h
  norm_num [Real.log_one] at h

/-- C1 (amended): for text `t` and coerced citation count `c ≥ 0`, the impact
score equals `log(1 + c) / 10` plus the number of *distinct vocabulary phrases
present* in the text divided by the vocabulary size (8); in particular the
phrase term never exceeds 1 — repeats of a phrase do not increase it. -/
theorem impact_score_is_presence_count_formula (t : String) (c : Int) (h : 0 ≤ c) :
    calcImpactScore (some t) (some c) =
      some (Real.log (1 + (c : ℝ)) / 10 +
        (impactCount t : ℝ) / (impactPhrases.length : ℝ)) ∧
    impactCount t ≤ impactPhrases.length ∧
    (impactCount t : ℝ) / (impactPhrases.length : ℝ) ≤ 1 := by
  have hle : impactCount t ≤ impactPhrases.length := List.length_filter_le _ _
  refine ⟨?_, hle, ?_⟩
  · simp [calcImpactScore, calcImpactScoreBody, citationTerm, h]
  · have h8 : (impactPhrases.length : ℝ) = 8 := by norm_num [impactPhrases]
    rw [h8, div_le_one (by norm_num)]
    have : impactCount t ≤ 8 := by
      simpa [impactPhrases] using hle
    exact_mod_cast this

/-- Witness for `impact_score_is_presence_count_formula` at a concrete input. -/
theorem impact_score_is_presence_count_formula_witness :
    calcImpactScore (some "a novel first study") (some 5) =
      some (Real.log (1 + ((5 : Int) : ℝ)) / 10 +
        (impactCount "a novel first study" : ℝ) / (impactPhrases.length : ℝ)) ∧
    impactCount "a novel first study" ≤ impactPhrases.length ∧
    (impactCount "a novel first study" : ℝ) / (impactPhrases.length : ℝ) ≤ 1 :=
  impact_score_is_presence_count_formula "a novel first study" 5 (by decide)

/-! ## Claim C3 — citation coercion and the zero citation term -/

/-- C3 (counterexample): a raw citation string that parses to `-1 ≤ 0` does
not give a citation term of exactly 0 — `np.log1p(-1.0)` is `-inf` (modelled
`none`), not 0. -/
theorem negative_citations_term_not_zero :
    coerceCitations (.str "-1") ≤ 0 ∧
      citationTerm (coerceCitations (.str "-1")) ≠ some 0 := by
  have h : coerceCitations (.str "-1") = -1 := by decide
  rw [h]
  refine ⟨by norm_num, ?_⟩
  simp [citationTerm]

/-- C3 (amended): an absent, `None`, or non-numeric raw citation value is
coerced to 0 — never a type fault — and whenever the coerced count is 0 the
citation term is exactly 0.  (A raw value parsing to a *negative* count is
coerced faithfully and then yields a non-finite citation term, see the
counterexample.) -/
theorem citation_coercion_safe_and_zero_term :
    coerceCitations .absent = 0 ∧ coerceCitations .pyNone = 0 ∧
    (∀ s : String, parseFloatParts s.toList = none → coerceCitations (.str s) = 0) ∧
    (∀ r : RawCit, coerceCitations r = 0 →
      citationTerm (coerceCitations r) = some 0) := by
  refine ⟨rfl, rfl, ?_, ?_⟩
  · intro s hs
    have hs' : parseFloatParts s.data = none := hs
    simp [coerceCitations, hs']
  · intro r hr
    rw [hr]
    simp only [citationTerm, le_refl, if_pos]
    norm_num

/-- Witness for `citation_coercion_safe_and_zero_term` at concrete inputs. -/
theorem citation_coercion_safe_and_zero_term_witness :
    coerceCitations (.str "N/A") = 0 ∧
      citationTerm (coerceCitations .absent) = some 0 :=
  ⟨citation_coercion_safe_and_zero_term.2.2.1 "N/A" (by decide),
   citation_coercion_safe_and_zero_term.2.2.2 .absent (by decide)⟩

/-! ## Claim C9 — per-publication scoring exceptions -/

/-- C9: any exception in the scoring body is caught and converted to a score
of 0.0, and the per-category batch decomposes over the corpus — the
contributions produced for any suffix of the corpus are unaffected by the
publications before it, so one failing record never aborts the rest. -/
theorem scoring_exception_scores_zero_and_batch_continues :
    (∀ (t : Option String) (c : Option Int) (e : Unit),
      calcImpactScoreBody t c = .error e → calcImpactScore t c = some 0) ∧
    (∀ (pubs1 pubs2 : List DPub) (kws : List String),
      analyzeCat (pubs1 ++ pubs2) kws =
        analyzeCat pubs1 kws ++ analyzeCat pubs2 kws) := by
  constructor
  · intro t c e h
    simp [calcImpactScore, h]
  · intro p1 p2 kws
    simp [analyzeCat, List.filterMap_append]

/-- Witness for `scoring_exception_scores_zero_and_batch_continues`: a
non-string text raises inside the body and is scored 0.0. -/
theorem scoring_exception_scores_zero_witness :
    calcImpactScore none (some 3) = some 0 :=
  scoring_exception_scores_zero_and_batch_continues.1 none (some 3) () rfl

/-! ## Claim C10 — contribution production -/

/-- C10: for every corpus and category keyword list, the per-category
contribution list consists of exactly one record per publication whose
lowercased text contains a category keyword AND whose finding-sentence
extraction is non-empty, in corpus order — a keyword match without a finding
sentence yields no contribution. -/
theorem contribution_iff_keywords_and_findings :
    ∀ (pubs : List DPub) (kws : List String),
      analyzeCat pubs kws =
        (pubs.filter (fun p =>
          textContainsKeywords (lowerStr (p.title ++ " " ++ p.abstract)) kws &&
            !(extractKeyFindings p.sents).isEmpty)).map mkContribution := by
  intro pubs kws
  induction pubs with
  | nil => rfl
  | cons p t ih =>
    rw [analyzeCat, List.filterMap_cons, List.filter_cons]
    cases h1 : textContainsKeywords (lowerStr (p.title ++ " " ++ p.abstract)) kws with
    | false => simpa [contribForCat, h1] using ih
    | true =>
      cases h2 : extractKeyFindings p.sents with
      | nil => simpa [contribForCat, h1, h2] using ih
      | cons a b =>
        rw [show contribForCat kws p = some (mkContribution p) by
          simp [contribForCat, h1, h2]]
        simpa [h1, h2] using ih

/-! ## Claim C6 — mention count ≥ paper-set size -/

/-- C6: for every field id and every corpus (and any field-lookup table and
NLP availability), the usage record satisfies `|papers| ≤ mentions`: mentions
are counted with multiplicity while papers are deduplicated. -/
theorem mention_count_ge_paper_set :
    ∀ (maps : List (String × String)) (nlp : Bool) (pubs : List IPub)
      (fid : String),
      (((analyzeFieldUsage maps nlp pubs).recs fid).papers).card ≤
        ((analyzeFieldUsage maps nlp pubs).recs fid).mentions := by
  intro maps nlp pubs fid
  have h0 : papersLEMentions emptyUsage := by
    intro f
    simp [emptyUsage, emptyRec]
  exact papersLEMentions_pubs maps nlp pubs emptyUsage h0 fid

/-! ## Claim C7 — only taxonomy-confirmed ids populate records -/

/-- C7: a field-id-shaped string that is not a key of the taxonomy lookup
creates no usage record: after processing any corpus, it is not a key of
`field_usage` and its (virtual defaultdict) record is still the default. -/
theorem unknown_ids_produce_no_usage_record :
    ∀ (maps : List (String × String)) (nlp : Bool) (pubs : List IPub)
      (fid : String), (maps.map Prod.fst).contains fid = false →
      fid ∉ (analyzeFieldUsage maps nlp pubs).keys ∧
        (analyzeFieldUsage maps nlp pubs).recs fid = emptyRec := by
  intro maps nlp pubs fid hm
  have h0 : noRecord fid emptyUsage := by
    constructor
    · simp [emptyUsage]
    · rfl
  exact noRecord_pubs maps nlp hm pubs emptyUsage h0

/-- Witness for `unknown_ids_produce_no_usage_record` — the spec's Scenario D:
`"12-3.4"` occurs in the text but is absent from the taxonomy lookup, so it
gets no usage record (while the taxonomy-confirmed `"100-0.0"` does get
touched, showing the corpus is really scanned). -/
theorem unknown_ids_produce_no_usage_record_witness :
    "12-3.4" ∉ (analyzeFieldUsage [("100-0.0", "Lifestyle")] true
      [{ publication_id := "p1", title := "T",
         abstract := "fields 100-0.0 and 12-3.4 appear",
         year := some 2020,
         sents := ["T fields 100-0.0 and 12-3.4 appear"] }]).keys ∧
    (analyzeFieldUsage [("100-0.0", "Lifestyle")] true
      [{ publication_id := "p1", title := "T",
         abstract := "fields 100-0.0 and 12-3.4 appear",
         year := some 2020,
         sents := ["T fields 100-0.0 and 12-3.4 appear"] }]).recs "12-3.4" =
      emptyRec :=
  unknown_ids_produce_no_usage_record [("100-0.0", "Lifestyle")] true
    [{ publication_id := "p1", title := "T",
       abstract := "fields 100-0.0 and 12-3.4 appear",
       year := some 2020,
       sents := ["T fields 100-0.0 and 12-3.4 appear"] }] "12-3.4" (by decide)

/-! ## Claim C2 — context sentences are neither deduplicated nor bounded -/

/-- C2 (counterexample): a single publication mentioning the known field
`"1-0.0"` six times makes the field's context list hold six copies of the same
sentence — the list has duplicates and exceeds any small fixed bound N ≈ 5,
refuting the claimed dedup-and-first-N invariant. -/
theorem contexts_exceed_bound_with_duplicates :
    (((analyzeFieldUsage [("1-0.0", "C")] true
      [{ publication_id := "p1", title := "T",
         abstract := "1-0.0 1-0.0 1-0.0 1-0.0 1-0.0 1-0.0",
         year := some 2020,
         sents := ["T 1-0.0 1-0.0 1-0.0 1-0.0 1-0.0 1-0.0"] }]).recs
        "1-0.0").contexts).length = 6 ∧
    ¬ (((analyzeFieldUsage [("1-0.0", "C")] true
      [{ publication_id := "p1", title := "T",
         abstract := "1-0.0 1-0.0 1-0.0 1-0.0 1-0.0 1-0.0",
         year := some 2020,
         sents := ["T 1-0.0 1-0.0 1-0.0 1-0.0 1-0.0 1-0.0"] }]).recs
        "1-0.0").contexts).Nodup := by
  constructor
  · decide
  · decide

/-- C2 (amended): the context list of a field is the concatenation, in
discovery order, of one copy of the field's matching sentences *per mention
occurrence*: nothing is deduplicated and no bound is applied, so it grows
linearly with the number of mentions. -/
theorem contexts_extend_per_mention :
    ∀ (maps : List (String × String)) (nlp : Bool) (pubs : List IPub)
      (fid : String),
      ((analyzeFieldUsage maps nlp pubs).recs fid).contexts =
        pubs.flatMap (fun p =>
          if (maps.map Prod.fst).contains fid then
            (List.replicate ((findFields (pubText p)).count fid)
              (getFieldContext nlp p.sents fid)).flatten
          else []) := by
  intro maps nlp pubs fid
  exact analyzeFieldUsage_contexts maps nlp pubs fid

/-! ## Claim C4 — the paper set holds titles, not publication identifiers -/

/-- C4 (counterexample): the aggregator adds `pub.get('title')`, not the
publication's identifier: for a publication with id `"3141"` and title
`"Energy intake study"` mentioning the known field `"100-0.0"`, the field's
paper set does not contain the id but does contain the title. -/
theorem papers_set_contains_title_not_id :
    "3141" ∉ ((analyzeFieldUsage [("100-0.0", "Lifestyle")] false
      [{ publication_id := "3141", title := "Energy intake study",
         abstract := "uses 100-0.0 here", year := none,
         sents := [] }]).recs "100-0.0").papers ∧
    "Energy intake study" ∈ ((analyzeFieldUsage [("100-0.0", "Lifestyle")] false
      [{ publication_id := "3141", title := "Energy intake study",
         abstract := "uses 100-0.0 here", year := none,
         sents := [] }]).recs "100-0.0").papers := by
  constructor
  · rw [analyzeFieldUsage_papers]
    rw [List.mem_toFinset]
    decide
  · rw [analyzeFieldUsage_papers]
    rw [List.mem_toFinset]
    decide

/-- C4 (amended): the paper set of a field is exactly the *set of titles* of
the publications whose text mentions the taxonomy-confirmed field — a set, so
repeat mentions in one paper do not grow it, but publications are identified
by title (distinct publications sharing a title collapse). -/
theorem papers_is_set_of_titles :
    ∀ (maps : List (String × String)) (nlp : Bool) (pubs : List IPub)
      (fid : String),
      ((analyzeFieldUsage maps nlp pubs).recs fid).papers =
        ((pubs.filter (fun p => (maps.map Prod.fst).contains fid &&
            (findFields (pubText p)).contains fid)).map IPub.title).toFinset := by
  intro maps nlp pubs fid
  exact analyzeFieldUsage_papers maps nlp pubs fid

/-! ## Claim C5 — every field row is placed exactly once -/

/-- C5: processing a field row with a non-empty field id adds its field entry
to exactly one subcategory of the taxonomy (the first name-matching one, or
the uncategorized/default fallback — `processFieldRow` embeds that search
order), and rows with an empty id add none; consequently, for every pair of
input tables, the total number of field entries anywhere in the built taxonomy
equals the number of field rows with a non-empty id — never zero and never
more than one placement per row. -/
theorem every_field_row_placed_exactly_once :
    (∀ (st : Cats) (f : FieldRow),
      totalFields (processFieldRow st f) =
        totalFields st + (if f.field_id = "" then 0 else 1)) ∧
    (∀ (catRows : List CatRow) (fieldRows : List FieldRow),
      totalFields (processCategories catRows fieldRows) =
        (fieldRows.filter (fun f => !(f.field_id == ""))).length) := by
  constructor
  · exact totalFields_processFieldRow
  · intro catRows fieldRows
    unfold processCategories
    rw [totalFields_fieldPass fieldRows (catRows.foldl processCatRow []),
      totalFields_catPass catRows []]
    simp [totalFields]

/-! ## Claim C8 — the coverage percentage is guarded and bounded -/

/-- C8: for every field-lookup table, usage table and category, the usage
percentage `used_fields / total_fields * 100` lies in [0, 100] whenever
`total_fields > 0`, and the guarded expression is exactly 0 when
`total_fields = 0` — the division never faults. -/
theorem coverage_percentage_in_bounds :
    ∀ (maps : List (String × String)) (usage : Usage) (cat : String),
      (0 < (analyzeCategoryCoverage maps usage cat).total_fields →
        0 ≤ usagePercentage (analyzeCategoryCoverage maps usage cat) ∧
        usagePercentage (analyzeCategoryCoverage maps usage cat) ≤ 100) ∧
      ((analyzeCategoryCoverage maps usage cat).total_fields = 0 →
        usagePercentage (analyzeCategoryCoverage maps usage cat) = 0) := by
  intro maps usage cat
  constructor
  · intro hpos
    have hut : (analyzeCategoryCoverage maps usage cat).used_fields ≤
        (analyzeCategoryCoverage maps usage cat).total_fields := by
      exact coverage_used_le_total usage maps (fun _ => emptyCov)
        (fun c => le_refl _) cat
    unfold usagePercentage
    rw [if_pos hpos]
    constructor
    · positivity
    · have h1 : ((analyzeCategoryCoverage maps usage cat).used_fields : ℚ) /
          ((analyzeCategoryCoverage maps usage cat).total_fields : ℚ) ≤ 1 := by
        rw [div_le_one (by exact_mod_cast hpos)]
        exact_mod_cast hut
      nlinarith
  · intro h0
    unfold usagePercentage
    rw [if_neg (by omega)]

/-- Witness for `coverage_percentage_in_bounds`: a category with two fields
(none used) has percentage 0 ∈ [0, 100]; a category with no fields gets the
guarded value 0. -/
theorem coverage_percentage_in_bounds_witness :
    (0 ≤ usagePercentage
      (analyzeCategoryCoverage [("f1", "A"), ("f2", "A")] emptyUsage "A") ∧
     usagePercentage
      (analyzeCategoryCoverage [("f1", "A"), ("f2", "A")] emptyUsage "A") ≤ 100) ∧
    usagePercentage
      (analyzeCategoryCoverage [("f1", "A"), ("f2", "A")] emptyUsage "B") = 0 := by
  constructor
  · exact (coverage_percentage_in_bounds [("f1", "A"), ("f2", "A")] emptyUsage "A").1
      (by simp [analyzeCategoryCoverage, covStep, emptyUsage, emptyCov])
  · exact (coverage_percentage_in_bounds [("f1", "A"), ("f2", "A")] emptyUsage "B").2
      (by simp [analyzeCategoryCoverage, covStep, emptyUsage, emptyCov])

end UKB
